import Mathlib

/-!
Shallow embedding of cold_pulses/scripts_pulse/filters.py: the duration,
max_drop, specific_tsi and remove_overlap candidate filters, together with
theorems checking the specification claims against them.

Modelling conventions.
Temperatures and stratification-index values are rationals; a missing
value (NaN in the source) is modelled as none.  Candidate intervals are
parallel lists of natural-number sample indices, paired by zipping.
Python exceptions are modelled with Except PyErr; the Python value None
produced by falling through a function body without returning is
modelled with Option (Except.ok none means "returned None normally").
The collaborator functions temperature_stratification_index and
convex_hull_pulse are not part of the source tree; they are taken as
function-typed parameters, as the specification describes them.
-/

unseal Rat.add Rat.sub Rat.mul Rat.inv

/-- Python error outcomes reachable in filters.py. -/
inductive PyErr
  | indexError
  | valueError
deriving DecidableEq

instance {ε α : Type} [DecidableEq ε] [DecidableEq α] : DecidableEq (Except ε α) := fun x y =>
  match x, y with
  | Except.ok a, Except.ok b =>
    if h : a = b then isTrue (by rw [h]) else isFalse (fun hh => by cases hh; exact h rfl)
  | Except.error a, Except.error b =>
    if h : a = b then isTrue (by rw [h]) else isFalse (fun hh => by cases hh; exact h rfl)
  | Except.ok _, Except.error _ => isFalse (fun hh => by cases hh)
  | Except.error _, Except.ok _ => isFalse (fun hh => by cases hh)

/-- The half-open sample window [s, e) as the list s, s+1, ..., e-1
(the slice darray[:, start:end] along time). -/
def window (s e : ℕ) : List ℕ := (List.range (e - s)).map (fun i => s + i)

/-- Binary maximum of two rationals, written out so it evaluates. -/
def qmax (a b : ℚ) : ℚ := if a ≤ b then b else a

/-- Fold maximum of a list of rationals; this is the numpy/xarray max of
a nonempty slice (the start value is the first element, so on a nonempty
list this is the genuine maximum). -/
def listMax (l : List ℚ) : ℚ := l.foldl qmax (l.headD 0)

/-- Embeds filters.duration (lines 17-43).  pandas DataFrame construction
raises ValueError on mismatched column lengths; kind "min" keeps the
intervals whose sample duration is at least 60*min_duration/dt, kind
"max" keeps those whose duration is at most 60*max_duration/dt, and any
other kind falls off the end of the Python function, returning None. -/
def duration (starts ends : List ℕ) (dt : ℚ) (kind : String)
    (min_duration max_duration : ℚ) : Except PyErr (Option (List ℕ × List ℕ)) :=
  if starts.length ≠ ends.length then Except.error PyErr.valueError
  else
    let pairs := starts.zip ends
    if kind = "min" then
      let kept := pairs.filter (fun p => decide (60 * min_duration / dt ≤ (p.2 : ℚ) - (p.1 : ℚ)))
      Except.ok (some (kept.map Prod.fst, kept.map Prod.snd))
    else if kind = "max" then
      let kept := pairs.filter (fun p => decide ((p.2 : ℚ) - (p.1 : ℚ) ≤ 60 * max_duration / dt))
      Except.ok (some (kept.map Prod.fst, kept.map Prod.snd))
    else Except.ok none

/-- One row of the all_drops list of max_drop (lines 74-77): for each of
the nd depths, the maximum over t in [s, e) of f d s - f d t. -/
def dropsRow (f : ℕ → ℕ → ℚ) (nd : ℕ) (s e : ℕ) : List ℚ :=
  (List.range nd).map (fun d => listMax ((window s e).map (fun t => f d s - f d t)))

/-- The all_drops list built by the candidate loop of max_drop
(lines 62-77); in the source this loop runs before the depth lookup. -/
def max_drop_all_drops (f : ℕ → ℕ → ℚ) (nd : ℕ) (pairs : List (ℕ × ℕ)) : List (List ℚ) :=
  pairs.map (fun p => dropsRow f nd p.1 p.2)

/-- First index at which x occurs in l; np.where(arr == x)[0][0] raises
IndexError when x is absent. -/
def npWhereFirst (l : List ℚ) (x : ℚ) : Except PyErr ℕ :=
  match l with
  | [] => Except.error PyErr.indexError
  | a :: r =>
    if a = x then Except.ok 0
    else
      match npWhereFirst r x with
      | Except.ok i => Except.ok (i + 1)
      | Except.error e => Except.error e

/-- Column j of np.array(rows).  np.array of an empty Python list is a
1-D empty array, so the 2-D indexing rows[:, j] raises IndexError; the
same happens when j is out of range of a row. -/
def npColumn (rows : List (List ℚ)) (j : ℕ) : Except PyErr (List ℚ) :=
  match rows with
  | [] => Except.error PyErr.indexError
  | _ =>
    if rows.all (fun r => decide (j < r.length)) then
      Except.ok (rows.map (fun r => r.getD j 0))
    else Except.error PyErr.indexError

/-- Observable outcome of one max_drop call: the start indices reported
to the progress printer by the candidate loop, the all_drops list that
loop builds, and the returned or raised result.  The loop (lines 62-77)
runs to completion before the depth lookup of line 79 can raise. -/
structure MaxDropOut where
  progressCalls : List ℕ
  allDrops : List (List ℚ)
  result : Except PyErr (List ℕ × List ℕ)

/-- Embeds filters.max_drop (lines 46-92).  For each candidate the
per-depth maximum drop from the window start is computed; afterwards the
target depth is looked up in the depth axis and candidates are kept iff
the drop at that depth strictly exceeds cut_off. -/
def max_drop (f : ℕ → ℕ → ℚ) (depths : List ℚ) (starts ends : List ℕ)
    (depth : ℚ) (cut_off : ℚ) : MaxDropOut :=
  let pairs := starts.zip ends
  let allDrops := max_drop_all_drops f depths.length pairs
  let res : Except PyErr (List ℕ × List ℕ) :=
    match npWhereFirst depths depth with
    | Except.error e => Except.error e
    | Except.ok i =>
      match npColumn allDrops i with
      | Except.error e => Except.error e
      | Except.ok col =>
        let kept := (pairs.zip col).filter (fun q => decide (cut_off < q.2))
        Except.ok (kept.map (fun q => q.1.1), kept.map (fun q => q.1.2))
  ⟨pairs.map Prod.fst, allDrops, res⟩

/-- Masked assignment darray_copy[mask, s:e] = series: positions (d, t)
with mask d and s ≤ t < e receive the series value at t, everything else
keeps its previous value. -/
def updWindow (g : ℕ → ℕ → Option ℚ) (mask : ℕ → Bool) (s e : ℕ) (v : ℕ → ℚ) :
    ℕ → ℕ → Option ℚ :=
  fun d t => if mask d = true ∧ s ≤ t ∧ t < e then some (v t) else g d t

/-- One iteration of the synthetic-field loop of specific_tsi
(lines 139-147): the interpolated target-depth series is written into
all non-target depths over the candidate window, then the original
target-depth values are written back into the target row over the same
window.  (The fake_temp .where expression of lines 141-145 is dead code:
its value is discarded.) -/
def stepPulse (f : ℕ → ℕ → ℚ) (itp : ℕ → ℚ) (idepth : ℕ)
    (g : ℕ → ℕ → Option ℚ) (p : ℕ × ℕ) : ℕ → ℕ → Option ℚ :=
  updWindow (updWindow g (fun d => decide (d ≠ idepth)) p.1 p.2 itp)
    (fun d => decide (d = idepth)) p.1 p.2 (fun t => f idepth t)

/-- The synthetic temperature field darray_copy of specific_tsi: starts
all-NaN and is filled per candidate window by stepPulse.
Modelled from the spec: convex_hull_pulse (not under src/) returns a
same-length interpolated series for the target-depth time series, and
the windowed assignment copies its values at the window's own time
samples. -/
def synthField (f : ℕ → ℕ → ℚ) (itp : ℕ → ℚ) (idepth : ℕ)
    (pairs : List (ℕ × ℕ)) : ℕ → ℕ → Option ℚ :=
  pairs.foldl (stepPulse f itp idepth) (fun _ _ => none)

/-- Per-sample keep test for top pulses (line 166):
(r_tsi - s_tsi < 0) and (s_tsi > 0); any NaN operand compares false. -/
def stsiTopTest (r s : ℕ → Option ℚ) (t : ℕ) : Bool :=
  match r t, s t with
  | some rv, some sv => decide (rv - sv < 0) && decide (0 < sv)
  | _, _ => false

/-- Per-sample keep test for bottom pulses (line 171):
(r_tsi - s_tsi > 0) and (s_tsi < 0); any NaN operand compares false. -/
def stsiBotTest (r s : ℕ → Option ℚ) (t : ℕ) : Bool :=
  match r t, s t with
  | some rv, some sv => decide (0 < rv - sv) && decide (sv < 0)
  | _, _ => false

/-- Embeds filters.specific_tsi (lines 95-175).  tlen is the length of
the time axis, index_fn models temperature_stratification_index and
interp_fn models convex_hull_pulse (both collaborators are outside
src/).  The depth lookup of line 112 precedes the loops; the keep test
of lines 165-174 counts qualifying samples over the whole time axis
(the series is never sliced to the candidate window). -/
def specific_tsi (f : ℕ → ℕ → ℚ) (tlen : ℕ) (depths : List ℚ)
    (starts ends : List ℕ) (r_tsi : ℕ → Option ℚ) (depth : ℚ) (kind : String)
    (index_fn : (ℕ → ℕ → Option ℚ) → ℕ → Option ℚ)
    (interp_fn : (ℕ → ℚ) → ℕ → ℚ) : Except PyErr (List ℕ × List ℕ) :=
  match npWhereFirst depths depth with
  | Except.error e => Except.error e
  | Except.ok idepth =>
    let pairs := starts.zip ends
    let itp := interp_fn (fun t => f idepth t)
    let s_tsi := index_fn (synthField f itp idepth pairs)
    let kept := pairs.foldl (fun acc p =>
      if kind = "top" then
        if 0 < (List.range tlen).countP (stsiTopTest r_tsi s_tsi) then acc ++ [p] else acc
      else if kind = "bot" then
        if 0 < (List.range tlen).countP (stsiBotTest r_tsi s_tsi) then acc ++ [p] else acc
      else acc) []
    Except.ok (kept.map Prod.fst, kept.map Prod.snd)

/-- Pulse-presence indicator of remove_overlap (lines 186-190): sample t
is covered iff some candidate half-open window contains it. -/
def coveredB (pairs : List (ℕ × ℕ)) (t : ℕ) : Bool :=
  pairs.any (fun p => decide (p.1 ≤ t) && decide (t < p.2))

/-- Rising-edge predicate on the indicator: np.diff > 0 at i. -/
def risingP (cov : ℕ → Bool) (i : ℕ) : Bool := !cov i && cov (i + 1)

/-- Falling-edge predicate on the indicator: np.diff < 0 at i. -/
def fallingP (cov : ℕ → Bool) (i : ℕ) : Bool := cov i && !cov (i + 1)

/-- Indices of rising edges of the indicator (line 193); np.diff of an
array of length n has length n-1. -/
def risingList (cov : ℕ → Bool) (n : ℕ) : List ℕ :=
  (List.range (n - 1)).filter (risingP cov)

/-- Indices of falling edges of the indicator (line 194). -/
def fallingList (cov : ℕ → Bool) (n : ℕ) : List ℕ :=
  (List.range (n - 1)).filter (fallingP cov)

/-- New starts of remove_overlap: rising edges, with 0 prepended when
the indicator is 1 at index 0 (lines 196-197). -/
def newStartsOf (cov : ℕ → Bool) (n : ℕ) : List ℕ :=
  if cov 0 then 0 :: risingList cov n else risingList cov n

/-- New ends of remove_overlap: falling edges, with n appended when the
indicator is 1 at its last index (lines 198-199). -/
def newEndsOf (cov : ℕ → Bool) (n : ℕ) : List ℕ :=
  if cov (n - 1) then fallingList cov n ++ [n] else fallingList cov n

/-- Embeds filters.remove_overlap (lines 177-200).  ends[-1] on an empty
array raises IndexError, as does reading pulse_presence[0] when the
indicator array np.zeros(ends[-1]) is empty. -/
def remove_overlap (starts ends : List ℕ) : Except PyErr (List ℕ × List ℕ) :=
  match ends.getLast? with
  | none => Except.error PyErr.indexError
  | some n =>
    if n = 0 then Except.error PyErr.indexError
    else
      let cov := coveredB (starts.zip ends)
      Except.ok (newStartsOf cov n, newEndsOf cov n)

/-- Count of elements at most t, used to reason about edge lists. -/
def cntLE (l : List ℕ) (t : ℕ) : ℕ := l.countP (fun x => decide (x ≤ t))

/-- Concrete all-zero temperature field used in closed instances. -/
def zeroField : ℕ → ℕ → ℚ := fun _ _ => 0

/-- Concrete field whose target-depth series starts at 5 and drops to 3. -/
def stepField : ℕ → ℕ → ℚ := fun _ t => if t = 0 then 5 else 3

/-- Concrete stratification-index collaborator: reads depth row 0 of the
field, propagating missing values (NaN in, NaN out). -/
def rowZeroIndexFn : (ℕ → ℕ → Option ℚ) → ℕ → Option ℚ := fun g t => g 0 t

/-- Concrete interpolation collaborator returning the constant series 1. -/
def constOneInterp : (ℕ → ℚ) → ℕ → ℚ := fun _ _ => 1

/-- Concrete identity interpolation collaborator. -/
def idInterp : (ℕ → ℚ) → ℕ → ℚ := fun s => s

/-- Concrete reference index series: 0 before sample 2, then 5. -/
def exRtsi : ℕ → Option ℚ := fun t => if t < 2 then some 0 else some 5

/-- The synthetic stratification index arising in the concrete
specific_tsi run of claim C1 (depth index 1, candidates (0,2), (3,5)). -/
def exStsi : ℕ → Option ℚ :=
  rowZeroIndexFn (synthField zeroField (constOneInterp (fun t => zeroField 1 t)) 1 [(0, 2), (3, 5)])

/-- C1: the source keeps candidate (3,5) of this run although no sample of
its own window [3,5) passes the top test: the test series is counted over
the whole time axis (lines 165-174 never slice to [start, end)), so the
qualifying samples 0 and 1 of the other candidate's window keep every
candidate.  The claimed window-restricted criterion would reject (3,5). -/
theorem C1_code_eval :
    specific_tsi zeroField 6 [10, 25] [0, 3] [2, 5] exRtsi 25 "top" rowZeroIndexFn constOneInterp
      = Except.ok ([0, 3], [2, 5]) ∧
    (List.range 6).filter (stsiTopTest exRtsi exStsi) = [0, 1] := by
  exact ⟨by decide, by decide⟩

/-- C3: on zero candidates, duration (both kinds) and specific_tsi return
two empty sequences, but max_drop raises IndexError (the empty all_drops
list becomes a 1-D array, so the 2-D indexing all_drops[:, index_depth]
is illegal) and remove_overlap raises IndexError (ends[-1] on an empty
array), contradicting the claim that every filter returns empties. -/
theorem C3_empty_eval :
    duration [] [] 60 "min" 10 1440 = Except.ok (some ([], [])) ∧
    duration [] [] 60 "max" 10 1440 = Except.ok (some ([], [])) ∧
    specific_tsi zeroField 5 [25] [] [] (fun _ => none) 25 "top" rowZeroIndexFn idInterp
      = Except.ok ([], []) ∧
    (max_drop zeroField [25] [] [] 25 (1 / 100)).result = Except.error PyErr.indexError ∧
    remove_overlap [] [] = Except.error PyErr.indexError := by
  exact ⟨by decide, by decide, by decide, by decide, by decide⟩

/-- C6 counterexample: with an unknown kind, duration returns the Python
value None normally (Except.ok none); it does not raise an error, so the
claim that it fails loudly is false. -/
theorem C6_counterexample :
    duration [0] [5] 60 "typo" 10 1440 = Except.ok none := by
  decide

/-- C2 counterexample: for the single valid interval [1,3) (ends nonempty,
last element maximal), the output is ([0],[3]), whose covered set contains
sample 0 while the input's does not, so the output union differs from the
input union and the interval is not returned unchanged. -/
theorem C2_counterexample :
    remove_overlap [1] [3] = Except.ok ([0], [3]) ∧
    coveredB [(0, 3)] 0 = true ∧ coveredB [(1, 3)] 0 = false := by
  exact ⟨by decide, by decide, by decide⟩

/-- C9 counterexample: the valid input starts=[0,3], ends=[1,4] (0 < 1 and
3 < 4) produces starts=[0,2], ends=[0,4], whose first output interval has
start equal to end (0 = 0), violating starts[i] < ends[i]. -/
theorem C9_counterexample :
    remove_overlap [0, 3] [1, 4] = Except.ok ([0, 2], [0, 4]) ∧
    ¬ (∀ p ∈ ([0, 2] : List ℕ).zip [0, 4], p.1 < p.2) := by
  exact ⟨by decide, by decide⟩

/-- C5 counterexample: with target depth 25 absent from the depth axis
[10], max_drop raises IndexError, but only after the candidate loop has
run: progress is reported for candidate start 0 and its per-depth drops
[0] are computed, so the claim that no per-candidate drop computation
happens before the error is false. -/
theorem C5_counterexample :
    (max_drop zeroField [10] [0] [3] 25 (1 / 100)).result = Except.error PyErr.indexError ∧
    (max_drop zeroField [10] [0] [3] 25 (1 / 100)).progressCalls = [0] ∧
    (max_drop zeroField [10] [0] [3] 25 (1 / 100)).allDrops = [[0]] := by
  exact ⟨by decide, by decide, by decide⟩

lemma qmax_left (a b : ℚ) : a ≤ qmax a b := by
  unfold qmax
  split
  · assumption
  · exact le_refl a

lemma qmax_right (a b : ℚ) : b ≤ qmax a b := by
  unfold qmax
  split
  · exact le_refl b
  · exact le_of_not_le (by assumption)

lemma qmax_cases (a b : ℚ) : qmax a b = a ∨ qmax a b = b := by
  unfold qmax
  split
  · exact Or.inr rfl
  · exact Or.inl rfl

lemma foldl_qmax_init_le (l : List ℚ) : ∀ a, a ≤ l.foldl qmax a := by
  induction l with
  | nil => intro a; exact le_refl a
  | cons x t ih => intro a; exact le_trans (qmax_left a x) (ih (qmax a x))

lemma foldl_qmax_le_of_mem (l : List ℚ) : ∀ a x, x ∈ l → x ≤ l.foldl qmax a := by
  induction l with
  | nil => intro a x hx; cases hx
  | cons y t ih =>
    intro a x hx
    rcases List.mem_cons.mp hx with h | h
    · subst h; exact le_trans (qmax_right a x) (foldl_qmax_init_le t (qmax a x))
    · exact ih (qmax a y) x h

lemma foldl_qmax_mem_or (l : List ℚ) : ∀ a, l.foldl qmax a = a ∨ l.foldl qmax a ∈ l := by
  induction l with
  | nil => intro a; exact Or.inl rfl
  | cons y t ih =>
    intro a
    rcases ih (qmax a y) with h | h
    · rcases qmax_cases a y with h2 | h2
      · exact Or.inl (by rw [List.foldl_cons, h, h2])
      · exact Or.inr (by rw [List.foldl_cons, h, h2]; exact List.mem_cons_self y t)
    · exact Or.inr (by rw [List.foldl_cons]; exact List.mem_cons_of_mem y h)

lemma le_listMax (l : List ℚ) (x : ℚ) (hx : x ∈ l) : x ≤ listMax l :=
  foldl_qmax_le_of_mem l (l.headD 0) x hx

lemma listMax_mem (l : List ℚ) (hl : l ≠ []) : listMax l ∈ l := by
  unfold listMax
  rcases foldl_qmax_mem_or l (l.headD 0) with h | h
  · rw [h]
    cases l with
    | nil => exact absurd rfl hl
    | cons y t => simp
  · exact h

lemma lt_listMax_iff (l : List ℚ) (hl : l ≠ []) (c : ℚ) :
    c < listMax l ↔ ∃ x ∈ l, c < x := by
  constructor
  · intro h; exact ⟨listMax l, listMax_mem l hl, h⟩
  · rintro ⟨x, hx, hcx⟩; exact lt_of_lt_of_le hcx (le_listMax l x hx)

lemma zipMapFstSnd {α β : Type} (l : List (α × β)) :
    (l.map Prod.fst).zip (l.map Prod.snd) = l := by
  induction l with
  | nil => rfl
  | cons p t ih => simp [ih]

lemma foldl_keep_const {α : Type} (c : Prop) [Decidable c] (l : List α) :
    ∀ a : List α,
      l.foldl (fun acc p => if c then acc ++ [p] else acc) a = if c then a ++ l else a := by
  induction l with
  | nil => intro a; by_cases h : c <;> simp [h]
  | cons x t ih =>
    intro a
    rw [List.foldl_cons, ih (if c then a ++ [x] else a)]
    by_cases h : c <;> simp [h]

lemma stepPulse_eval (f : ℕ → ℕ → ℚ) (itp : ℕ → ℚ) (idepth : ℕ)
    (g : ℕ → ℕ → Option ℚ) (p : ℕ × ℕ) (d t : ℕ) :
    stepPulse f itp idepth g p d t =
      if p.1 ≤ t ∧ t < p.2 then
        (if d = idepth then some (f idepth t) else some (itp t))
      else g d t := by
  unfold stepPulse updWindow
  by_cases hd : d = idepth <;> by_cases hw1 : p.1 ≤ t <;> by_cases hw2 : t < p.2 <;>
    simp [hd, hw1, hw2]

lemma synthFold_eval (f : ℕ → ℕ → ℚ) (itp : ℕ → ℚ) (idepth : ℕ) :
    ∀ (pairs : List (ℕ × ℕ)) (g : ℕ → ℕ → Option ℚ) (d t : ℕ),
      pairs.foldl (stepPulse f itp idepth) g d t =
        if coveredB pairs t = true then
          (if d = idepth then some (f idepth t) else some (itp t))
        else g d t := by
  intro pairs
  induction pairs with
  | nil => intro g d t; simp [coveredB]
  | cons p rest ih =>
    intro g d t
    rw [List.foldl_cons, ih]
    by_cases hcov : coveredB rest t = true
    · have : coveredB (p :: rest) t = true := by
        simp [coveredB] at hcov ⊢
        exact Or.inr hcov
      simp [this, hcov]
    · by_cases hw : p.1 ≤ t ∧ t < p.2
      · have : coveredB (p :: rest) t = true := by
          simp [coveredB]
          exact Or.inl ⟨hw.1, hw.2⟩
        simp [this, hcov, stepPulse_eval, hw]
      · have : coveredB (p :: rest) t = false := by
          simp [coveredB] at hcov ⊢
          exact ⟨fun h1 => not_lt.mp (fun h2 => hw ⟨h1, h2⟩), hcov⟩
        simp [this, hcov, stepPulse_eval, hw]

lemma synthField_eval (f : ℕ → ℕ → ℚ) (itp : ℕ → ℚ) (idepth : ℕ)
    (pairs : List (ℕ × ℕ)) (d t : ℕ) :
    synthField f itp idepth pairs d t =
      if coveredB pairs t = true then
        (if d = idepth then some (f idepth t) else some (itp t))
      else none := by
  unfold synthField
  rw [synthFold_eval]

/-- C4: in the synthetic-field construction of specific_tsi, every sample
of a candidate window receives the interpolated target-depth estimate at
the non-target depths and the unmodified original values at the target
depth, and every sample outside all candidate windows stays missing at
every depth.  (The interpolation collaborator convex_hull_pulse is
modelled from the spec as a whole-series function.) -/
theorem C4_synth_field (f : ℕ → ℕ → ℚ) (interp_fn : (ℕ → ℚ) → ℕ → ℚ)
    (idepth : ℕ) (pairs : List (ℕ × ℕ)) (d t : ℕ) :
    (∀ p, p ∈ pairs → p.1 ≤ t → t < p.2 → d ≠ idepth →
      synthField f (interp_fn (fun u => f idepth u)) idepth pairs d t
        = some (interp_fn (fun u => f idepth u) t)) ∧
    (∀ p, p ∈ pairs → p.1 ≤ t → t < p.2 →
      synthField f (interp_fn (fun u => f idepth u)) idepth pairs idepth t
        = some (f idepth t)) ∧
    (coveredB pairs t = false →
      synthField f (interp_fn (fun u => f idepth u)) idepth pairs d t = none) := by
  refine ⟨?_, ?_, ?_⟩
  · intro p hp h1 h2 hd
    have hcov : coveredB pairs t = true := by
      simp [coveredB]
      exact ⟨p.1, p.2, hp, h1, h2⟩
    rw [synthField_eval]
    simp [hcov, hd]
  · intro p hp h1 h2
    have hcov : coveredB pairs t = true := by
      simp [coveredB]
      exact ⟨p.1, p.2, hp, h1, h2⟩
    rw [synthField_eval]
    simp [hcov]
  · intro hcov
    rw [synthField_eval]
    simp [hcov]

/-- Closed instance of C4_synth_field: covered samples of the single
window (1,3) get the interpolated value at depth 1 and the original
value at the target depth 0, and sample 5 is outside and stays none. -/
theorem C4_witness :
    synthField stepField (constOneInterp (fun u => stepField 0 u)) 0 [(1, 3)] 1 2
        = some (constOneInterp (fun u => stepField 0 u) 2) ∧
    synthField stepField (constOneInterp (fun u => stepField 0 u)) 0 [(1, 3)] 0 2
        = some (stepField 0 2) ∧
    synthField stepField (constOneInterp (fun u => stepField 0 u)) 0 [(1, 3)] 1 5
        = none := by
  refine ⟨?_, ?_, ?_⟩
  · exact (C4_synth_field stepField constOneInterp 0 [(1, 3)] 1 2).1
      (1, 3) (by simp) (by decide) (by decide) (by decide)
  · exact (C4_synth_field stepField constOneInterp 0 [(1, 3)] 0 2).2.1
      (1, 3) (by simp) (by decide) (by decide)
  · exact (C4_synth_field stepField constOneInterp 0 [(1, 3)] 1 5).2.2 (by decide)

/-- C10: with a valid kind and the target depth present, specific_tsi
gives every candidate the same verdict, returning either the whole input
or two empty sequences; the per-candidate test never depends on the
candidate's own window. -/
theorem C10_all_or_nothing (f : ℕ → ℕ → ℚ) (tlen : ℕ) (depths : List ℚ)
    (starts ends : List ℕ) (r_tsi : ℕ → Option ℚ) (depth : ℚ) (kind : String)
    (index_fn : (ℕ → ℕ → Option ℚ) → ℕ → Option ℚ)
    (interp_fn : (ℕ → ℚ) → ℕ → ℚ) (i : ℕ)
    (h1 : starts.length = ends.length)
    (h2 : npWhereFirst depths depth = Except.ok i)
    (h3 : kind = "top" ∨ kind = "bot") :
    specific_tsi f tlen depths starts ends r_tsi depth kind index_fn interp_fn
        = Except.ok (starts, ends) ∨
      specific_tsi f tlen depths starts ends r_tsi depth kind index_fn interp_fn
        = Except.ok ([], []) := by
  unfold specific_tsi
  rw [h2]
  have hfst : ((starts.zip ends).map Prod.fst) = starts :=
    List.map_fst_zip starts ends (le_of_eq h1)
  have hsnd : ((starts.zip ends).map Prod.snd) = ends :=
    List.map_snd_zip starts ends (ge_of_eq h1)
  rcases h3 with hk | hk <;> subst hk
  · simp only [reduceIte]
    rw [foldl_keep_const]
    split
    · exact Or.inl (by simp only [List.nil_append, hfst, hsnd])
    · exact Or.inr (by simp)
  · simp only [String.reduceEq, reduceIte]
    rw [foldl_keep_const]
    split
    · exact Or.inl (by simp only [List.nil_append, hfst, hsnd])
    · exact Or.inr (by simp)

/-- Closed instance of C10_all_or_nothing at a one-candidate input. -/
theorem C10_witness :
    specific_tsi zeroField 3 [25] [0] [2] (fun _ => some 0) 25 "top" rowZeroIndexFn idInterp
        = Except.ok ([0], [2]) ∨
      specific_tsi zeroField 3 [25] [0] [2] (fun _ => some 0) 25 "top" rowZeroIndexFn idInterp
        = Except.ok ([], []) :=
  C10_all_or_nothing zeroField 3 [25] [0] [2] (fun _ => some 0) 25 "top"
    rowZeroIndexFn idInterp 0 rfl (by decide) (Or.inl rfl)

/-- C5 amended: when the target depth is absent from the depth axis,
max_drop raises IndexError and never returns a kept set, but only after
the candidate loop has completed: progress is reported for every
candidate start first. -/
theorem C5_amended (f : ℕ → ℕ → ℚ) (depths : List ℚ) (starts ends : List ℕ)
    (depth cut : ℚ) (h1 : starts.length = ends.length)
    (h2 : npWhereFirst depths depth = Except.error PyErr.indexError) :
    (max_drop f depths starts ends depth cut).result = Except.error PyErr.indexError ∧
    (max_drop f depths starts ends depth cut).progressCalls = starts := by
  unfold max_drop
  constructor
  · simp [h2]
  · simp [List.map_fst_zip starts ends (le_of_eq h1)]

/-- Closed instance of C5_amended: depth 25 is absent from axis [10]. -/
theorem C5_amended_witness :
    (max_drop zeroField [10] [2] [4] 25 1).result = Except.error PyErr.indexError ∧
    (max_drop zeroField [10] [2] [4] 25 1).progressCalls = [2] :=
  C5_amended zeroField [10] [2] [4] 25 1 rfl (by decide)

/-- C6 amended: an unknown kind makes duration fall through and return
the Python value None: it neither raises nor passes candidates through. -/
theorem C6_amended (starts ends : List ℕ) (dt min_d max_d : ℚ) (kind : String)
    (h1 : starts.length = ends.length) (h2 : kind ≠ "min") (h3 : kind ≠ "max") :
    duration starts ends dt kind min_d max_d = Except.ok none := by
  unfold duration
  simp [h1, h2, h3]

/-- Closed instance of C6_amended. -/
theorem C6_amended_witness :
    duration [2] [7] 30 "other" 1 2 = Except.ok none :=
  C6_amended [2] [7] 30 1 2 "other" rfl (by decide) (by decide)

lemma npWhereFirst_lt_length :
    ∀ (l : List ℚ) (x : ℚ) (i : ℕ), npWhereFirst l x = Except.ok i → i < l.length := by
  intro l
  induction l with
  | nil => intro x i h; simp [npWhereFirst] at h
  | cons a r ih =>
    intro x i h
    unfold npWhereFirst at h
    by_cases ha : a = x
    · rw [if_pos ha] at h
      cases h
      simp
    · rw [if_neg ha] at h
      cases hr : npWhereFirst r x with
      | ok j =>
        rw [hr] at h
        cases h
        have := ih x j hr
        simp
        omega
      | error e => rw [hr] at h; cases h

lemma dropsRow_length (f : ℕ → ℕ → ℚ) (nd s e : ℕ) : (dropsRow f nd s e).length = nd := by
  simp [dropsRow]

lemma dropsRow_getD (f : ℕ → ℕ → ℚ) (nd s e i : ℕ) (hi : i < nd) :
    (dropsRow f nd s e).getD i 0 = listMax ((window s e).map (fun t => f i s - f i t)) := by
  unfold dropsRow
  rw [List.getD_eq_getElem _ _ (by simpa using hi)]
  simp

lemma npColumn_all_drops (f : ℕ → ℕ → ℚ) (nd : ℕ) (pairs : List (ℕ × ℕ)) (i : ℕ)
    (hne : pairs ≠ []) (hi : i < nd) :
    npColumn (max_drop_all_drops f nd pairs) i
      = Except.ok (pairs.map (fun p => (dropsRow f nd p.1 p.2).getD i 0)) := by
  unfold npColumn max_drop_all_drops
  cases pairs with
  | nil => exact absurd rfl hne
  | cons p ps =>
    have hall : (((p :: ps).map (fun q => dropsRow f nd q.1 q.2)).all
        (fun r => decide (i < r.length))) = true := by
      rw [List.all_eq_true]
      intro r hr
      rw [List.mem_map] at hr
      obtain ⟨q, _, rfl⟩ := hr
      simp [dropsRow_length, hi]
    simp only [List.map_map] at hall ⊢
    rw [if_pos hall]
    simp [List.map_cons, Function.comp]

lemma zipSelfMap {α β : Type} (l : List α) (g : α → β) :
    l.zip (l.map g) = l.map (fun p => (p, g p)) := by
  induction l with
  | nil => rfl
  | cons x t ih => simp [ih]

lemma window_ne_nil (s e : ℕ) (h : s < e) : window s e ≠ [] := by
  unfold window
  have : e - s ≠ 0 := by omega
  cases he : e - s with
  | zero => exact absurd he this
  | succ k => simp [he, List.range_succ_eq_map]

/-- C7: with the target depth present, candidates nonempty and valid
windows, max_drop keeps exactly the candidates whose maximum drop at the
target depth over their own window strictly exceeds cut_off; since the
maximum is attained, this is the same as having some sample in the
window whose drop strictly exceeds cut_off, so a candidate whose maximum
drop equals cut_off exactly is rejected. -/
theorem C7_max_drop (f : ℕ → ℕ → ℚ) (depths : List ℚ) (starts ends : List ℕ)
    (depth cut_off : ℚ) (i : ℕ)
    (h0 : starts ≠ []) (h1 : starts.length = ends.length)
    (h2 : npWhereFirst depths depth = Except.ok i)
    (h3 : ∀ p ∈ starts.zip ends, p.1 < p.2) :
    ∃ S E, (max_drop f depths starts ends depth cut_off).result = Except.ok (S, E) ∧
      S.zip E = (starts.zip ends).filter
        (fun p => decide (cut_off < listMax ((window p.1 p.2).map (fun t => f i p.1 - f i t)))) ∧
      S.zip E = (starts.zip ends).filter
        (fun p => (window p.1 p.2).any (fun t => decide (cut_off < f i p.1 - f i t))) := by
  have hi : i < depths.length := npWhereFirst_lt_length depths depth i h2
  have hne : starts.zip ends ≠ [] := by
    cases starts with
    | nil => exact absurd rfl h0
    | cons s ss =>
      cases ends with
      | nil => simp at h1
      | cons e es => simp
  simp only [max_drop, h2, npColumn_all_drops f depths.length (starts.zip ends) i hne hi]
  rw [zipSelfMap, List.filter_map]
  refine ⟨_, _, rfl, ?_, ?_⟩
  · have hcomp1 : ((fun q : (ℕ × ℕ) × ℚ => q.1.1) ∘
        fun p : ℕ × ℕ => (p, (dropsRow f depths.length p.1 p.2).getD i 0)) = Prod.fst := rfl
    have hcomp2 : ((fun q : (ℕ × ℕ) × ℚ => q.1.2) ∘
        fun p : ℕ × ℕ => (p, (dropsRow f depths.length p.1 p.2).getD i 0)) = Prod.snd := rfl
    rw [List.map_map, List.map_map, hcomp1, hcomp2, zipMapFstSnd]
    apply List.filter_congr
    intro p hp
    simp only [Function.comp]
    simp only [dropsRow_getD f depths.length p.1 p.2 i hi]
  · have hcomp1 : ((fun q : (ℕ × ℕ) × ℚ => q.1.1) ∘
        fun p : ℕ × ℕ => (p, (dropsRow f depths.length p.1 p.2).getD i 0)) = Prod.fst := rfl
    have hcomp2 : ((fun q : (ℕ × ℕ) × ℚ => q.1.2) ∘
        fun p : ℕ × ℕ => (p, (dropsRow f depths.length p.1 p.2).getD i 0)) = Prod.snd := rfl
    rw [List.map_map, List.map_map, hcomp1, hcomp2, zipMapFstSnd]
    apply List.filter_congr
    intro p hp
    simp only [Function.comp]
    simp only [dropsRow_getD f depths.length p.1 p.2 i hi]
    have hwne : (window p.1 p.2).map (fun t => f i p.1 - f i t) ≠ [] := by
      have := window_ne_nil p.1 p.2 (h3 p hp)
      simpa using this
    by_cases hc : cut_off < listMax ((window p.1 p.2).map (fun t => f i p.1 - f i t))
    · have hex := (lt_listMax_iff _ hwne cut_off).mp hc
      obtain ⟨x, hx, hcx⟩ := hex
      rw [List.mem_map] at hx
      obtain ⟨t, ht, rfl⟩ := hx
      have hany : (window p.1 p.2).any (fun t => decide (cut_off < f i p.1 - f i t)) = true := by
        rw [List.any_eq_true]
        exact ⟨t, ht, by simpa using hcx⟩
      rw [hany]
      simp [hc]
    · have hany : (window p.1 p.2).any (fun t => decide (cut_off < f i p.1 - f i t)) = false := by
        rw [← Bool.not_eq_true, List.any_eq_true]
        rintro ⟨t, ht, hct⟩
        apply hc
        rw [lt_listMax_iff _ hwne cut_off]
        exact ⟨f i p.1 - f i t, List.mem_map_of_mem _ ht, by simpa using hct⟩
      rw [hany]
      simp [hc]

/-- Closed instance of C7_max_drop: one candidate (0,2) whose maximum
drop 2 at the target depth exceeds the cutoff 1. -/
theorem C7_witness :
    ∃ S E, (max_drop stepField [25] [0] [2] 25 1).result = Except.ok (S, E) ∧
      S.zip E = (([0] : List ℕ).zip [2]).filter
        (fun p => decide (1 < listMax ((window p.1 p.2).map (fun t => stepField 0 p.1 - stepField 0 t)))) ∧
      S.zip E = (([0] : List ℕ).zip [2]).filter
        (fun p => (window p.1 p.2).any (fun t => decide (1 < stepField 0 p.1 - stepField 0 t))) :=
  C7_max_drop stepField [25] [0] [2] 25 1 0 (by decide) rfl (by decide) (by decide)

/-- C8: duration converts the threshold as 60*minutes/dt samples and
keeps an interval iff its duration is at least that many samples for
kind "min", at most that many for kind "max" (both inclusive); on
starts=[0,5,12], ends=[3,9,20], dt=60, kind "min", 5 minutes it returns
starts=[12], ends=[20]. -/
theorem C8_duration (starts ends : List ℕ) (dt min_d max_d : ℚ)
    (h1 : starts.length = ends.length) :
    (∃ S E, duration starts ends dt "min" min_d max_d = Except.ok (some (S, E)) ∧
      S.zip E = (starts.zip ends).filter
        (fun p => decide (60 * min_d / dt ≤ (p.2 : ℚ) - (p.1 : ℚ)))) ∧
    (∃ S E, duration starts ends dt "max" min_d max_d = Except.ok (some (S, E)) ∧
      S.zip E = (starts.zip ends).filter
        (fun p => decide ((p.2 : ℚ) - (p.1 : ℚ) ≤ 60 * max_d / dt))) ∧
    duration [0, 5, 12] [3, 9, 20] 60 "min" 5 1440 = Except.ok (some ([12], [20])) := by
  refine ⟨?_, ?_, by decide⟩
  · simp only [duration, h1, ne_eq, not_true_eq_false, if_false, reduceIte]
    exact ⟨_, _, rfl, zipMapFstSnd _⟩
  · simp only [duration, h1, ne_eq, not_true_eq_false, if_false, String.reduceEq, reduceIte]
    exact ⟨_, _, rfl, zipMapFstSnd _⟩

/-- Closed instance of C8_duration at the spec's worked example. -/
theorem C8_witness :
    (∃ S E, duration [0, 5, 12] [3, 9, 20] 60 "min" 5 1440 = Except.ok (some (S, E)) ∧
      S.zip E = (([0, 5, 12] : List ℕ).zip ([3, 9, 20] : List ℕ)).filter
        (fun p => decide (60 * 5 / 60 ≤ (p.2 : ℚ) - (p.1 : ℚ)))) ∧
    (∃ S E, duration [0, 5, 12] [3, 9, 20] 60 "max" 5 1440 = Except.ok (some (S, E)) ∧
      S.zip E = (([0, 5, 12] : List ℕ).zip ([3, 9, 20] : List ℕ)).filter
        (fun p => decide ((p.2 : ℚ) - (p.1 : ℚ) ≤ 60 * 1440 / 60))) ∧
    duration [0, 5, 12] [3, 9, 20] 60 "min" 5 1440 = Except.ok (some ([12], [20])) :=
  C8_duration [0, 5, 12] [3, 9, 20] 60 5 1440 rfl

lemma countP_singleton (p : ℕ → Bool) (a : ℕ) :
    List.countP p [a] = if p a then 1 else 0 := by
  simp [List.countP_cons]

lemma telescope_edges (cov : ℕ → Bool) :
    ∀ m : ℕ, ((List.range m).countP (risingP cov) : ℤ) - (List.range m).countP (fallingP cov)
      = (if cov m then 1 else 0) - (if cov 0 then 1 else 0) := by
  intro m
  induction m with
  | zero => simp
  | succ m ih =>
    rw [List.range_succ, List.countP_append, List.countP_append]
    cases h0 : cov 0 <;> cases hm : cov m <;> cases hm1 : cov (m + 1) <;>
      simp [h0, hm, hm1, countP_singleton, risingP, fallingP] at ih ⊢ <;> omega

lemma cntLE_filter_range (p : ℕ → Bool) (t : ℕ) :
    ∀ b : ℕ, cntLE ((List.range b).filter p) t = (List.range (min (t + 1) b)).countP p := by
  intro b
  induction b with
  | zero => simp [cntLE]
  | succ b ih =>
    rw [cntLE] at ih ⊢
    rw [List.range_succ, List.filter_append, List.countP_append]
    by_cases hb : b ≤ t
    · have h1 : min (t + 1) (b + 1) = b + 1 := by omega
      have h2 : min (t + 1) b = b := by omega
      rw [h1, List.range_succ, List.countP_append, ih, h2]
      congr 1
      rw [List.filter_singleton]
      cases hp : p b <;> simp [countP_singleton, hb, hp]
    · have h1 : min (t + 1) (b + 1) = min (t + 1) b := by omega
      rw [h1, ← ih]
      rw [List.filter_singleton]
      cases hp : p b <;> simp [countP_singleton, hb, hp]

lemma sorted_getD_le_of_lt_cntLE :
    ∀ (l : List ℕ), l.Pairwise (· < ·) → ∀ (t j : ℕ), j < cntLE l t → l.getD j 0 ≤ t := by
  intro l
  induction l with
  | nil => intro _ t j hj; simp [cntLE] at hj
  | cons a r ih =>
    intro hp t j hj
    rw [cntLE, List.countP_cons] at hj
    by_cases ha : a ≤ t
    · cases j with
      | zero => simpa using ha
      | succ j =>
        rw [List.getD_cons_succ]
        apply ih hp.of_cons t j
        rw [cntLE]
        simp [ha] at hj
        omega
    · have hzero : r.countP (fun x => decide (x ≤ t)) = 0 := by
        rw [List.countP_eq_zero]
        intro x hx
        have hax := (List.pairwise_cons.mp hp).1 x hx
        simp
        omega
      rw [hzero] at hj
      simp [ha] at hj

lemma sorted_lt_getD_of_cntLE_le :
    ∀ (l : List ℕ), l.Pairwise (· < ·) → ∀ (t j : ℕ), j < l.length → cntLE l t ≤ j →
      t < l.getD j 0 := by
  intro l
  induction l with
  | nil => intro _ t j hj _; simp at hj
  | cons a r ih =>
    intro hp t j hj hc
    rw [cntLE, List.countP_cons] at hc
    by_cases ha : a ≤ t
    · simp [ha] at hc
      cases j with
      | zero => omega
      | succ j =>
        rw [List.getD_cons_succ]
        apply ih hp.of_cons t j (by simpa using hj)
        rw [cntLE]
        omega
    · cases j with
      | zero => rw [List.getD_cons_zero]; omega
      | succ j =>
        rw [List.getD_cons_succ]
        have hjr : j < r.length := by simpa using hj
        have hmem : r.getD j 0 ∈ r := by
          rw [List.getD_eq_getElem r 0 hjr]
          exact List.getElem_mem hjr
        have := (List.pairwise_cons.mp hp).1 _ hmem
        omega

lemma cntLE_newStartsOf (cov : ℕ → Bool) (n t : ℕ) :
    cntLE (newStartsOf cov n) t
      = (if cov 0 then 1 else 0) + (List.range (min (t + 1) (n - 1))).countP (risingP cov) := by
  unfold newStartsOf
  by_cases h0 : cov 0
  · rw [if_pos h0, if_pos h0, cntLE, List.countP_cons, ← cntLE, risingList, cntLE_filter_range]
    simp
    omega
  · rw [if_neg h0, if_neg h0, risingList, cntLE_filter_range]
    omega

lemma cntLE_newEndsOf (cov : ℕ → Bool) (n t : ℕ) (ht : t < n) :
    cntLE (newEndsOf cov n) t = (List.range (min (t + 1) (n - 1))).countP (fallingP cov) := by
  unfold newEndsOf
  by_cases hl : cov (n - 1)
  · rw [if_pos hl, cntLE, List.countP_append, ← cntLE, ← cntLE, fallingList, cntLE_filter_range]
    have hn : cntLE [n] t = 0 := by
      rw [cntLE, countP_singleton]
      simp
      omega
    rw [hn]
    omega
  · rw [if_neg hl, fallingList, cntLE_filter_range]

lemma edge_count_diff (cov : ℕ → Bool) (n t : ℕ) (ht : t < n) :
    (cntLE (newStartsOf cov n) t : ℤ) - cntLE (newEndsOf cov n) t
      = if cov (min (t + 1) (n - 1)) then 1 else 0 := by
  rw [cntLE_newStartsOf, cntLE_newEndsOf cov n t ht]
  have htel := telescope_edges cov (min (t + 1) (n - 1))
  cases h0 : cov 0 <;> cases hm : cov (min (t + 1) (n - 1)) <;>
    simp [h0, hm] at htel ⊢ <;> omega

lemma mem_newStartsOf_le (cov : ℕ → Bool) (n x : ℕ) (hx : x ∈ newStartsOf cov n) :
    x ≤ n - 1 := by
  unfold newStartsOf at hx
  by_cases h0 : cov 0
  · rw [if_pos h0] at hx
    rcases List.mem_cons.mp hx with h | h
    · omega
    · rw [risingList, List.mem_filter, List.mem_range] at h
      omega
  · rw [if_neg h0] at hx
    rw [risingList, List.mem_filter, List.mem_range] at hx
    omega

lemma mem_newEndsOf_le (cov : ℕ → Bool) (n x : ℕ) (hx : x ∈ newEndsOf cov n) : x ≤ n := by
  unfold newEndsOf at hx
  by_cases hl : cov (n - 1)
  · rw [if_pos hl, List.mem_append] at hx
    rcases hx with h | h
    · rw [fallingList, List.mem_filter, List.mem_range] at h
      omega
    · rw [List.mem_singleton] at h
      omega
  · rw [if_neg hl, fallingList, List.mem_filter, List.mem_range] at hx
    omega

lemma newStartsOf_length_eq (cov : ℕ → Bool) (n : ℕ) (hn : 0 < n) :
    (newStartsOf cov n).length = (newEndsOf cov n).length := by
  have hd := edge_count_diff cov n (n - 1) (by omega)
  have hmin : min (n - 1 + 1) (n - 1) = n - 1 := by omega
  rw [hmin] at hd
  have hS : cntLE (newStartsOf cov n) (n - 1) = (newStartsOf cov n).length := by
    rw [cntLE, List.countP_eq_length]
    intro x hx
    simpa using mem_newStartsOf_le cov n x hx
  have hE : (newEndsOf cov n).length
      = cntLE (newEndsOf cov n) (n - 1) + (if cov (n - 1) then 1 else 0) := by
    unfold newEndsOf
    by_cases hl : cov (n - 1)
    · rw [if_pos hl, if_pos hl]
      rw [List.length_append, cntLE, List.countP_append]
      have ha : (fallingList cov n).countP (fun x => decide (x ≤ n - 1))
          = (fallingList cov n).length := by
        rw [List.countP_eq_length]
        intro x hx
        rw [fallingList, List.mem_filter, List.mem_range] at hx
        simp
        omega
      have hb : List.countP (fun x => decide (x ≤ n - 1)) [n] = 0 := by
        rw [countP_singleton]
        simp
        omega
      rw [ha, hb]
      simp
    · rw [if_neg hl, if_neg hl]
      have ha : cntLE (fallingList cov n) (n - 1) = (fallingList cov n).length := by
        rw [cntLE, List.countP_eq_length]
        intro x hx
        rw [fallingList, List.mem_filter, List.mem_range] at hx
        simp
        omega
      rw [← ha]
      omega
  rw [hS] at hd
  cases hl : cov (n - 1) <;> rw [hl] at hd hE <;> simp at hd hE <;> omega

lemma risingList_pairwise (cov : ℕ → Bool) (n : ℕ) :
    (risingList cov n).Pairwise (· < ·) :=
  (List.pairwise_lt_range _).filter _

lemma fallingList_pairwise (cov : ℕ → Bool) (n : ℕ) :
    (fallingList cov n).Pairwise (· < ·) :=
  (List.pairwise_lt_range _).filter _

lemma newStartsOf_pairwise (cov : ℕ → Bool) (n : ℕ) :
    (newStartsOf cov n).Pairwise (· < ·) := by
  unfold newStartsOf
  by_cases h0 : cov 0
  · rw [if_pos h0, List.pairwise_cons]
    refine ⟨?_, risingList_pairwise cov n⟩
    intro x hx
    rw [risingList, List.mem_filter] at hx
    have hx2 := hx.2
    rw [risingP] at hx2
    by_contra hx0
    have hxz : x = 0 := by omega
    subst hxz
    simp [h0] at hx2
  · rw [if_neg h0]
    exact risingList_pairwise cov n

lemma newEndsOf_pairwise (cov : ℕ → Bool) (n : ℕ) :
    (newEndsOf cov n).Pairwise (· < ·) := by
  unfold newEndsOf
  by_cases hl : cov (n - 1)
  · rw [if_pos hl, List.pairwise_append]
    refine ⟨fallingList_pairwise cov n, List.pairwise_singleton _ _, ?_⟩
    intro x hx y hy
    rw [fallingList, List.mem_filter, List.mem_range] at hx
    rw [List.mem_singleton] at hy
    omega
  · rw [if_neg hl]
    exact fallingList_pairwise cov n

lemma remove_overlap_master (starts ends : List ℕ) (n : ℕ)
    (h1 : ends.getLast? = some n) (h2 : 0 < n) :
    ∃ S E, remove_overlap starts ends = Except.ok (S, E) ∧
      S.length = E.length ∧
      S.Pairwise (· < ·) ∧ E.Pairwise (· < ·) ∧
      (∀ t, t < n →
        ((∃ j, j < S.length ∧ S.getD j 0 ≤ t ∧ t < E.getD j 0) ↔
          coveredB (starts.zip ends) (min (t + 1) (n - 1)) = true)) ∧
      (∀ t j k, j < k → k < S.length → S.getD j 0 ≤ t → t < E.getD j 0 →
        S.getD k 0 ≤ t → t < E.getD k 0 → False) := by
  have hok : remove_overlap starts ends
      = Except.ok (newStartsOf (coveredB (starts.zip ends)) n,
                   newEndsOf (coveredB (starts.zip ends)) n) := by
    have hne : ¬ (n = 0) := by omega
    simp only [remove_overlap, h1, hne, if_false, reduceIte]
  set cov := coveredB (starts.zip ends) with hcov
  refine ⟨_, _, hok, newStartsOf_length_eq cov n h2, newStartsOf_pairwise cov n,
    newEndsOf_pairwise cov n, ?_, ?_⟩
  · intro t ht
    constructor
    · rintro ⟨j, hj, hSj, hEj⟩
      have hd := edge_count_diff cov n t ht
      have hA : j < cntLE (newStartsOf cov n) t := by
        by_contra hc
        push_neg at hc
        exact absurd (sorted_lt_getD_of_cntLE_le _ (newStartsOf_pairwise cov n) t j hj hc)
          (by omega)
      have hB : cntLE (newEndsOf cov n) t ≤ j := by
        by_contra hc
        push_neg at hc
        exact absurd (sorted_getD_le_of_lt_cntLE _ (newEndsOf_pairwise cov n) t j hc)
          (by omega)
      cases hm : cov (min (t + 1) (n - 1))
      · exfalso
        rw [hm] at hd
        simp at hd
        omega
      · rfl
    · intro hm
      have hd := edge_count_diff cov n t ht
      rw [hm] at hd
      simp at hd
      have hSlen : cntLE (newStartsOf cov n) t ≤ (newStartsOf cov n).length := by
        rw [cntLE]
        exact List.countP_le_length _
      refine ⟨cntLE (newEndsOf cov n) t, ?_, ?_, ?_⟩
      · omega
      · apply sorted_getD_le_of_lt_cntLE _ (newStartsOf_pairwise cov n)
        omega
      · apply sorted_lt_getD_of_cntLE_le _ (newEndsOf_pairwise cov n)
        · rw [← newStartsOf_length_eq cov n h2]
          omega
        · exact le_refl _
  · intro t j k hjk hk hSj hEj hSk hEk
    have htn : t < n := by
      have hjE : j < (newEndsOf cov n).length := by
        rw [← newStartsOf_length_eq cov n h2]
        omega
      have hmem : (newEndsOf cov n).getD j 0 ∈ newEndsOf cov n := by
        rw [List.getD_eq_getElem _ 0 hjE]
        exact List.getElem_mem hjE
      have := mem_newEndsOf_le cov n _ hmem
      omega
    have hd := edge_count_diff cov n t htn
    have hA : k < cntLE (newStartsOf cov n) t := by
      by_contra hc
      push_neg at hc
      exact absurd (sorted_lt_getD_of_cntLE_le _ (newStartsOf_pairwise cov n) t k hk hc)
        (by omega)
    have hB : cntLE (newEndsOf cov n) t ≤ j := by
      by_contra hc
      push_neg at hc
      exact absurd (sorted_getD_le_of_lt_cntLE _ (newEndsOf_pairwise cov n) t j hc)
        (by omega)
    cases hm : cov (min (t + 1) (n - 1)) <;> rw [hm] at hd <;> simp at hd <;> omega

/-- C2 amended: for a nonempty IntervalSet whose recorded maximal end n
is positive, remove_overlap returns equal-length, strictly sorted,
pairwise disjoint edge lists, but the covered set is the input coverage
shifted left by one sample (with the final sample n-1 keeping its own
coverage): sample t < n is output-covered iff the input covers
min(t+1, n-1).  The exact-union guarantee of the claim fails by this
one-sample shift. -/
theorem C2_amended (starts ends : List ℕ) (n : ℕ)
    (h1 : ends.getLast? = some n) (h2 : 0 < n) :
    ∃ S E, remove_overlap starts ends = Except.ok (S, E) ∧
      S.length = E.length ∧
      S.Pairwise (· < ·) ∧ E.Pairwise (· < ·) ∧
      (∀ t, t < n →
        ((∃ j, j < S.length ∧ S.getD j 0 ≤ t ∧ t < E.getD j 0) ↔
          coveredB (starts.zip ends) (min (t + 1) (n - 1)) = true)) ∧
      (∀ t j k, j < k → k < S.length → S.getD j 0 ≤ t → t < E.getD j 0 →
        S.getD k 0 ≤ t → t < E.getD k 0 → False) :=
  remove_overlap_master starts ends n h1 h2

/-- Closed instance of C2_amended at the spec's overlap example
starts=[0,4], ends=[5,8]. -/
theorem C2_witness :
    ∃ S E, remove_overlap [0, 4] [5, 8] = Except.ok (S, E) ∧
      S.length = E.length ∧
      S.Pairwise (· < ·) ∧ E.Pairwise (· < ·) ∧
      (∀ t, t < 8 →
        ((∃ j, j < S.length ∧ S.getD j 0 ≤ t ∧ t < E.getD j 0) ↔
          coveredB (([0, 4] : List ℕ).zip ([5, 8] : List ℕ)) (min (t + 1) (8 - 1)) = true)) ∧
      (∀ t j k, j < k → k < S.length → S.getD j 0 ≤ t → t < E.getD j 0 →
        S.getD k 0 ≤ t → t < E.getD k 0 → False) :=
  C2_amended [0, 4] [5, 8] 8 rfl (by decide)

lemma foldl_append_or_keep {α : Type} (h : List α → α → List α)
    (hh : ∀ acc p, h acc p = acc ++ [p] ∨ h acc p = acc) :
    ∀ (l a : List α) (x : α), x ∈ l.foldl h a → x ∈ a ∨ x ∈ l := by
  intro l
  induction l with
  | nil => intro a x hx; exact Or.inl hx
  | cons p t ih =>
    intro a x hx
    rw [List.foldl_cons] at hx
    rcases ih (h a p) x hx with hcase | hcase
    · rcases hh a p with he | he <;> rw [he] at hcase
      · rcases List.mem_append.mp hcase with hm | hm
        · exact Or.inl hm
        · rw [List.mem_singleton] at hm
          subst hm
          exact Or.inr (List.mem_cons_self x t)
      · exact Or.inl hcase
    · exact Or.inr (List.mem_cons_of_mem p hcase)

lemma inv_duration (starts ends : List ℕ) (dt min_d max_d : ℚ) (kind : String)
    (S E : List ℕ) (hinv : ∀ p ∈ starts.zip ends, p.1 < p.2)
    (heq : duration starts ends dt kind min_d max_d = Except.ok (some (S, E))) :
    S.length = E.length ∧ ∀ p ∈ S.zip E, p.1 < p.2 := by
  unfold duration at heq
  by_cases hlen : starts.length ≠ ends.length
  · rw [if_pos hlen] at heq
    cases heq
  · rw [if_neg hlen] at heq
    by_cases hk : kind = "min"
    · rw [if_pos hk] at heq
      simp only [Except.ok.injEq, Option.some.injEq, Prod.mk.injEq] at heq
      obtain ⟨hS, hE⟩ := heq
      subst hS
      subst hE
      refine ⟨by simp, ?_⟩
      intro p hp
      rw [zipMapFstSnd] at hp
      exact hinv p (List.mem_of_mem_filter hp)
    · rw [if_neg hk] at heq
      by_cases hk2 : kind = "max"
      · rw [if_pos hk2] at heq
        simp only [Except.ok.injEq, Option.some.injEq, Prod.mk.injEq] at heq
        obtain ⟨hS, hE⟩ := heq
        subst hS
        subst hE
        refine ⟨by simp, ?_⟩
        intro p hp
        rw [zipMapFstSnd] at hp
        exact hinv p (List.mem_of_mem_filter hp)
      · rw [if_neg hk2] at heq
        simp at heq

lemma inv_max_drop (f : ℕ → ℕ → ℚ) (depths : List ℚ) (starts ends : List ℕ)
    (depth cut : ℚ) (S E : List ℕ) (hinv : ∀ p ∈ starts.zip ends, p.1 < p.2)
    (heq : (max_drop f depths starts ends depth cut).result = Except.ok (S, E)) :
    S.length = E.length ∧ ∀ p ∈ S.zip E, p.1 < p.2 := by
  simp only [max_drop] at heq
  split at heq
  · cases heq
  · split at heq
    · cases heq
    · simp only [Except.ok.injEq, Prod.mk.injEq] at heq
      obtain ⟨hS, hE⟩ := heq
      subst hS
      subst hE
      refine ⟨by simp, ?_⟩
      intro p hp
      rw [List.zip_map'] at hp
      rw [List.mem_map] at hp
      obtain ⟨⟨⟨a, b⟩, c⟩, hq, rfl⟩ := hp
      have hq2 := List.mem_of_mem_filter hq
      have hq3 := List.of_mem_zip hq2
      exact hinv (a, b) hq3.1

lemma inv_specific_tsi (f : ℕ → ℕ → ℚ) (tlen : ℕ) (depths : List ℚ)
    (starts ends : List ℕ) (r_tsi : ℕ → Option ℚ) (depth : ℚ) (kind : String)
    (index_fn : (ℕ → ℕ → Option ℚ) → ℕ → Option ℚ)
    (interp_fn : (ℕ → ℚ) → ℕ → ℚ) (S E : List ℕ)
    (hinv : ∀ p ∈ starts.zip ends, p.1 < p.2)
    (heq : specific_tsi f tlen depths starts ends r_tsi depth kind index_fn interp_fn
      = Except.ok (S, E)) :
    S.length = E.length ∧ ∀ p ∈ S.zip E, p.1 < p.2 := by
  simp only [specific_tsi] at heq
  split at heq
  · cases heq
  · simp only [Except.ok.injEq, Prod.mk.injEq] at heq
    obtain ⟨hS, hE⟩ := heq
    subst hS
    subst hE
    refine ⟨by simp, ?_⟩
    intro p hp
    rw [zipMapFstSnd] at hp
    have hsub := foldl_append_or_keep _ ?_ (starts.zip ends) [] p hp
    · rcases hsub with hmem | hmem
      · simp at hmem
      · exact hinv p hmem
    · intro acc q
      split_ifs <;> simp

lemma len_remove_overlap (starts ends S E : List ℕ)
    (heq : remove_overlap starts ends = Except.ok (S, E)) :
    S.length = E.length := by
  unfold remove_overlap at heq
  split at heq
  · cases heq
  · split at heq
    · cases heq
    · simp only [Except.ok.injEq, Prod.mk.injEq] at heq
      obtain ⟨hS, hE⟩ := heq
      subst hS
      subst hE
      exact newStartsOf_length_eq _ _ (by omega)

/-- C9 amended: duration, max_drop and specific_tsi preserve the
IntervalSet invariant (equal lengths, start strictly below end, indices
dropped from both sequences together); remove_overlap still returns
equal-length sequences, but it can emit an output pair with start equal
to end, so it does not preserve starts[i] < ends[i]. -/
theorem C9_amended :
    (∀ (starts ends : List ℕ) (dt min_d max_d : ℚ) (kind : String) (S E : List ℕ),
      (∀ p ∈ starts.zip ends, p.1 < p.2) →
      duration starts ends dt kind min_d max_d = Except.ok (some (S, E)) →
      S.length = E.length ∧ ∀ p ∈ S.zip E, p.1 < p.2) ∧
    (∀ (f : ℕ → ℕ → ℚ) (depths : List ℚ) (starts ends : List ℕ) (depth cut : ℚ)
      (S E : List ℕ),
      (∀ p ∈ starts.zip ends, p.1 < p.2) →
      (max_drop f depths starts ends depth cut).result = Except.ok (S, E) →
      S.length = E.length ∧ ∀ p ∈ S.zip E, p.1 < p.2) ∧
    (∀ (f : ℕ → ℕ → ℚ) (tlen : ℕ) (depths : List ℚ) (starts ends : List ℕ)
      (r_tsi : ℕ → Option ℚ) (depth : ℚ) (kind : String)
      (index_fn : (ℕ → ℕ → Option ℚ) → ℕ → Option ℚ)
      (interp_fn : (ℕ → ℚ) → ℕ → ℚ) (S E : List ℕ),
      (∀ p ∈ starts.zip ends, p.1 < p.2) →
      specific_tsi f tlen depths starts ends r_tsi depth kind index_fn interp_fn
        = Except.ok (S, E) →
      S.length = E.length ∧ ∀ p ∈ S.zip E, p.1 < p.2) ∧
    (∀ (starts ends S E : List ℕ),
      remove_overlap starts ends = Except.ok (S, E) → S.length = E.length) := by
  refine ⟨?_, ?_, ?_, ?_⟩
  · intro starts ends dt min_d max_d kind S E hinv heq
    exact inv_duration starts ends dt min_d max_d kind S E hinv heq
  · intro f depths starts ends depth cut S E hinv heq
    exact inv_max_drop f depths starts ends depth cut S E hinv heq
  · intro f tlen depths starts ends r_tsi depth kind index_fn interp_fn S E hinv heq
    exact inv_specific_tsi f tlen depths starts ends r_tsi depth kind index_fn interp_fn
      S E hinv heq
  · intro starts ends S E heq
    exact len_remove_overlap starts ends S E heq

/-- Closed instances of the four parts of C9_amended. -/
theorem C9_amended_witness :
    (([12] : List ℕ).length = ([20] : List ℕ).length ∧
      ∀ p ∈ ([12] : List ℕ).zip ([20] : List ℕ), p.1 < p.2) ∧
    (([0] : List ℕ).length = ([2] : List ℕ).length ∧
      ∀ p ∈ ([0] : List ℕ).zip ([2] : List ℕ), p.1 < p.2) ∧
    (([] : List ℕ).length = ([] : List ℕ).length ∧
      ∀ p ∈ ([] : List ℕ).zip ([] : List ℕ), p.1 < p.2) ∧
    ([0] : List ℕ).length = ([8] : List ℕ).length := by
  refine ⟨?_, ?_, ?_, ?_⟩
  · exact C9_amended.1 [0, 5, 12] [3, 9, 20] 60 5 1440 "min" [12] [20] (by decide) (by decide)
  · exact C9_amended.2.1 stepField [25] [0] [2] 25 1 [0] [2] (by decide) (by decide)
  · exact C9_amended.2.2.1 zeroField 3 [25] [0] [2] (fun _ => some 0) 25 "top"
      rowZeroIndexFn idInterp [] [] (by decide) (by decide)
  · exact C9_amended.2.2.2 [0, 4] [5, 8] [0] [8] (by decide)
